import Mathlib

/-!
Verification development for the dvc repository slice consisting of
`dvc/stage/serialize.py` (embedded directly from the source) and the
content-addressable cache / `add` behaviour, which is exercised by
`tests/func/test_add.py` but whose implementation modules are not part of the
source tree given here; those parts are modelled from the specification and
each such definition is marked `Modelled from the spec:` in its doc comment.

Python dictionaries (`OrderedDict` in the source) are embedded as ordered
association lists `List (String × Val)`, Python values as the `Val` inductive,
and Python truthiness as `Val.truthy`.
-/

namespace DVC

/-- YAML-style value as produced by the serializers in `dvc/stage/serialize.py`:
`None`, strings, booleans, lists, and (ordered) dictionaries. -/
inductive Val where
  | null
  | s (v : String)
  | b (v : Bool)
  | list (l : List Val)
  | dict (l : List (String × Val))

/-- Python truthiness of a `Val` (`if value` in `to_pipeline_file`): `None`,
`""`, `False`, `[]` and `{}` are falsy, everything else is truthy. -/
def Val.truthy : Val → Bool
  | .null => false
  | .s v => !(v == "")
  | .b v => v
  | .list l => !l.isEmpty
  | .dict l => !l.isEmpty

/-- Code-point comparison of character lists; `charsLe a b` is the Python
string comparison `a <= b` applied to the underlying character sequences. -/
def charsLe : List Char → List Char → Bool
  | [], _ => true
  | _ :: _, [] => false
  | a :: as, b :: bs => if a < b then true else if b < a then false else charsLe as bs

/-- Python string comparison `a <= b` (lexicographic by code point). -/
def strLe (a b : String) : Bool := charsLe a.data b.data

/-- Insert an element into a sorted list, after every element that is `le` it;
inserting after equal keys is what makes `stableSort` stable, matching the
stability guarantee of Python `sorted`. -/
def insertSorted (le : α → α → Bool) (a : α) : List α → List α
  | [] => [a]
  | b :: bs => if le b a then b :: insertSorted le a bs else a :: b :: bs

/-- Stable sort by the boolean relation `le`; for a total preorder this
computes the same list as Python `sorted`, which is also stable. -/
def stableSort (le : α → α → Bool) (l : List α) : List α :=
  l.foldl (fun acc a => insertSorted le a acc) []

/-- Embedding of `sort_by_path = partial(sorted, key=attrgetter("def_path"))`
from `dvc/stage/serialize.py`, generalized over the `def_path` accessor. -/
def sort_by_path (path : α → String) (l : List α) : List α :=
  stableSort (fun a b => strLe (path a) (path b)) l

/-- Python `sorted` on a list of strings. -/
def sortStrings (l : List String) : List String := stableSort strLe l

/-- Python dictionary assignment `kvs[key] = v` on an ordered association
list: replaces the value in place when the key is present, appends otherwise. -/
def dictAssign {β : Type} (kvs : List (String × β)) (key : String) (v : β) :
    List (String × β) :=
  if kvs.any (fun kv => kv.1 == key) then
    kvs.map (fun kv => if kv.1 == key then (key, v) else kv)
  else
    kvs ++ [(key, v)]

/-- Python `OrderedDict.move_to_end(key, last=False)`: moves the entry for
`key` to the front (identity when the key is absent; the source only calls it
on a key it has just assigned). -/
def moveToFront {β : Type} (kvs : List (String × β)) (key : String) :
    List (String × β) :=
  match kvs.lookup key with
  | some v => (key, v) :: kvs.filter (fun kv => !(kv.1 == key))
  | none => kvs

/-! Constants mirroring `StageParams`, `BaseOutput` and `ParamsDependency`
parameter names used by `dvc/stage/serialize.py`. -/

def PARAM_PARAMS : String := "params"

def PARAM_PATH : String := "path"

def PARAM_DEPS : String := "deps"

def PARAM_OUTS : String := "outs"

def PARAM_CACHE : String := "cache"

def PARAM_PERSIST : String := "persist"

def PARAM_CMD : String := "cmd"

def PARAM_WDIR : String := "wdir"

def PARAM_METRICS : String := "metrics"

def PARAM_PLOTS : String := "plots"

def PARAM_FROZEN : String := "frozen"

def PARAM_ALWAYS_CHANGED : String := "always_changed"

def DEFAULT_PARAMS_FILE : String := "params.yaml"

/-- The `plot` attribute of an output: Python `out.plot` is `False`, `True`,
or a dict of plot properties (`_get_flags` tests `out.plot and
isinstance(out.plot, dict)`). -/
inductive PlotField where
  | noPlot
  | plotFlag
  | plotProps (l : List (String × Val))

/-- Python truthiness of the `plot` attribute. -/
def PlotField.truthy : PlotField → Bool
  | .noPlot => false
  | .plotFlag => true
  | .plotProps l => !l.isEmpty

/-- A `BaseOutput` as consumed by `dvc/stage/serialize.py`: its declared path
(`def_path`), the `cache`/`persist`/`plot`/`metric` flags, and the checksum
information used by the lockfile serializer. -/
structure Output where
  def_path : String
  use_cache : Bool
  persist : Bool
  plot : PlotField
  metric : Bool
  checksum_type : String
  checksum : String

/-- The `params` payload of a `ParamsDependency.dumpd()`: a dict of key/value
pairs, or a bare list of keys when the stage was created with `no_exec` (see
the comment in `_serialize_params_keys`). -/
inductive ParamsVal where
  | dict (kvs : List (String × Val))
  | list (ks : List String)

/-- A `ParamsDependency` as consumed by the two params serializers: its source
file path and its `params` payload. -/
structure ParamsDep where
  def_path : String
  params : ParamsVal

/-- A non-params dependency: path plus recorded checksum information. -/
structure PlainDep where
  def_path : String
  checksum_type : String
  checksum : String

/-- A stage dependency is either a plain path dependency or a parameters
dependency. -/
inductive Dep where
  | plain (d : PlainDep)
  | param (p : ParamsDep)

/-- A `Stage`/`PipelineStage` as consumed by `dvc/stage/serialize.py`:
`cmd` is optional (`None` for `add`-created stages), `path_dir` is the
directory containing the stage definition file. -/
structure Stage where
  name : String
  cmd : Option String
  wdir : String
  path_dir : String
  deps : List Dep
  outs : List Output
  frozen : Bool
  always_changed : Bool

/-- Modelled from the spec: `split_params_deps` (defined in
`dvc/stage/utils.py`, which is not part of the given source tree) splits a
stage dependency list into the parameter dependencies and the remaining plain
path dependencies, each preserving declaration order. -/
def split_params_deps (deps : List Dep) : List ParamsDep × List PlainDep :=
  (deps.filterMap fun d => match d with | .param p => some p | _ => none,
   deps.filterMap fun d => match d with | .plain d => some d | _ => none)

/-- Modelled from the spec: `resolve_wdir` (defined in `dvc/stage/utils.py`,
not part of the given source tree) returns `None` when the working directory
is the directory of the definition file (the spec default: "wdir (path,
defaults to definition file directory)"), and the working directory path
otherwise, so that the default is omitted on serialization. -/
def resolve_wdir (wdir : String) (path_dir : String) : Val :=
  if wdir == path_dir then Val.null else Val.s wdir

/-- Embedding of `_get_flags` from `dvc/stage/serialize.py`: yields
`cache: False` when the output opts out of caching, `persist: True` when set,
and the plot properties when `out.plot` is a truthy dict. -/
def _get_flags (out : Output) : List (String × Val) :=
  (if out.use_cache then [] else [(PARAM_CACHE, Val.b false)]) ++
  (if out.persist then [(PARAM_PERSIST, Val.b true)] else []) ++
  (match out.plot with
   | .plotProps l => if l.isEmpty then [] else l
   | _ => [])

/-- Embedding of `_serialize_out`: a bare path string when there are no
flags, otherwise a one-key dict from the path to the flag dict. -/
def _serialize_out (out : Output) : Val :=
  match _get_flags out with
  | [] => Val.s out.def_path
  | flags => Val.dict [(out.def_path, Val.dict flags)]

/-- Recursion underlying `_serialize_outs`: distributes the already-sorted
outputs into the `outs`/`metrics`/`plots` buckets, `plot` taking precedence
over `metric`, preserving order. -/
def _serialize_outs_go : List Output → List Val × List Val × List Val
  | [] => ([], [], [])
  | out :: rest =>
    let (o, m, p) := _serialize_outs_go rest
    if out.plot.truthy then (o, m, _serialize_out out :: p)
    else if out.metric then (o, _serialize_out out :: m, p)
    else (_serialize_out out :: o, m, p)

/-- Embedding of `_serialize_outs` from `dvc/stage/serialize.py`. -/
def _serialize_outs (outputs : List Output) : List Val × List Val × List Val :=
  _serialize_outs_go (sort_by_path Output.def_path outputs)

/-- The sorted key list of a params payload (`sorted(params.keys() if
isinstance(params, dict) else params)` in `_serialize_params_keys`). -/
def paramsSortedKeys : ParamsVal → List String
  | .dict kvs => sortStrings (kvs.map Prod.fst)
  | .list ks => sortStrings ks

/-- One iteration of the loop in `_serialize_params_keys`: an empty key list
is skipped, keys of the default params file are prepended bare, other files
are appended as one-key dicts grouping their sorted keys. -/
def paramsKeysStep (keys : List Val) (p : ParamsDep) : List Val :=
  match paramsSortedKeys p.params with
  | [] => keys
  | k =>
    if p.def_path == DEFAULT_PARAMS_FILE then k.map Val.s ++ keys
    else keys ++ [Val.dict [(p.def_path, Val.list (k.map Val.s))]]

/-- Embedding of `_serialize_params_keys` from `dvc/stage/serialize.py`:
folds `paramsKeysStep` over the path-sorted params dependencies. -/
def _serialize_params_keys (params : List ParamsDep) : List Val :=
  (sort_by_path ParamsDep.def_path params).foldl paramsKeysStep []

/-- One iteration of the loop in `_serialize_params_values`: list-valued
payloads are skipped, dict payloads are stored under their file path with
keys sorted, and the default params file entry is moved to the front. -/
def paramsValuesStep (key_vals : List (String × Val)) (p : ParamsDep) :
    List (String × Val) :=
  match p.params with
  | .dict d =>
    let kv := (sortStrings (d.map Prod.fst)).map
      (fun k => (k, (d.lookup k).getD Val.null))
    let kvs := dictAssign key_vals p.def_path (Val.dict kv)
    if p.def_path == DEFAULT_PARAMS_FILE then moveToFront kvs p.def_path
    else kvs
  | .list _ => key_vals

/-- Embedding of `_serialize_params_values` from `dvc/stage/serialize.py`:
folds `paramsValuesStep` over the path-sorted params dependencies. -/
def _serialize_params_values (params : List ParamsDep) : List (String × Val) :=
  (sort_by_path ParamsDep.def_path params).foldl paramsValuesStep []

/-- Whether a params payload is dict-valued (`isinstance(params, dict)`). -/
def isDictParams : ParamsVal → Bool
  | .dict _ => true
  | .list _ => false

/-- The sorted key/value rows a dict payload contributes to the lockfile
(`OrderedDict(kv)` in `_serialize_params_values`); `none` for list payloads. -/
def paramsDictKV : ParamsVal → Option (List (String × Val))
  | .dict d =>
    some ((sortStrings (d.map Prod.fst)).map
      (fun k => (k, (d.lookup k).getD Val.null)))
  | .list _ => none

/-- The lockfile params entry of one dict-valued params dependency: the file
path mapped to its sorted key/value rows. -/
def paramsValueEntry (p : ParamsDep) : String × Val :=
  (p.def_path, Val.dict ((paramsDictKV p.params).getD []))

/-- The bare key entries contributed by default-params-file dependencies of a
params list: each loop iteration prepends its keys, so the contributing
dependencies appear in reverse order, every bare key before any grouped
entry. -/
def defaultBareKeys (l : List ParamsDep) : List Val :=
  ((l.filter (fun p => p.def_path == DEFAULT_PARAMS_FILE &&
      !(paramsSortedKeys p.params).isEmpty)).reverse).flatMap
    (fun p => (paramsSortedKeys p.params).map Val.s)

/-- The grouped entries contributed by non-default params files with a
non-empty key list, in list order. -/
def groupedKeyEntries (l : List ParamsDep) : List Val :=
  (l.filter (fun p => !(p.def_path == DEFAULT_PARAMS_FILE) &&
      !(paramsSortedKeys p.params).isEmpty)).map
    (fun p => Val.dict [(p.def_path, Val.list ((paramsSortedKeys p.params).map Val.s))])

/-- Embedding of `to_pipeline_file` from `dvc/stage/serialize.py`: builds the
nine candidate key/value pairs and keeps only the truthy ones, mapping the
stage name to the resulting record. -/
def to_pipeline_file (stage : Stage) : List (String × Val) :=
  let wdir := resolve_wdir stage.wdir stage.path_dir
  let pd := split_params_deps stage.deps
  let deps := Val.list ((sortStrings (pd.2.map PlainDep.def_path)).map Val.s)
  let params := Val.list (_serialize_params_keys pd.1)
  let omp := _serialize_outs stage.outs
  let res : List (String × Val) := [
    (PARAM_CMD, match stage.cmd with | some c => Val.s c | none => Val.null),
    (PARAM_WDIR, wdir),
    (PARAM_DEPS, deps),
    (PARAM_PARAMS, params),
    (PARAM_OUTS, Val.list omp.1),
    (PARAM_METRICS, Val.list omp.2.1),
    (PARAM_PLOTS, Val.list omp.2.2),
    (PARAM_FROZEN, Val.b stage.frozen),
    (PARAM_ALWAYS_CHANGED, Val.b stage.always_changed)]
  [(stage.name, Val.dict (res.filter (fun kv => kv.2.truthy)))]

/-- Python truthiness of `stage.cmd` (the `assert stage.cmd` guard). -/
def cmdTruthy : Option String → Bool
  | some c => !(c == "")
  | none => false

/-- One lockfile entry `OrderedDict([(PARAM_PATH, item.def_path),
(item.checksum_type, item.checksum)])`. -/
def lockfileEntry (def_path checksum_type checksum : String) : Val :=
  Val.dict [(PARAM_PATH, Val.s def_path), (checksum_type, Val.s checksum)]

/-- Embedding of `to_single_stage_lockfile` from `dvc/stage/serialize.py`:
the `assert stage.cmd` guard becomes the error branch; otherwise the record
starts with `cmd` and adds `deps`, `params`, `outs` only when non-empty, the
`deps` and `outs` lists sorted by path. -/
def to_single_stage_lockfile (stage : Stage) :
    Except String (List (String × Val)) :=
  if cmdTruthy stage.cmd then
    let pd := split_params_deps stage.deps
    let depsL := (sort_by_path PlainDep.def_path pd.2).map
      (fun d => lockfileEntry d.def_path d.checksum_type d.checksum)
    let outsL := (sort_by_path Output.def_path stage.outs).map
      (fun o => lockfileEntry o.def_path o.checksum_type o.checksum)
    let paramsL := _serialize_params_values pd.1
    let res : List (String × Val) := [(PARAM_CMD, Val.s (stage.cmd.getD ""))]
    let res := if depsL.isEmpty then res else res ++ [(PARAM_DEPS, Val.list depsL)]
    let res := if paramsL.isEmpty then res
      else res ++ [(PARAM_PARAMS, Val.dict paramsL)]
    let res := if outsL.isEmpty then res else res ++ [(PARAM_OUTS, Val.list outsL)]
    Except.ok res
  else Except.error "AssertionError: stage.cmd"

/-- Embedding of `to_lockfile` from `dvc/stage/serialize.py`: asserts the
stage name and maps it to the single-stage lock record. -/
def to_lockfile (stage : Stage) : Except String (List (String × Val)) :=
  if stage.name == "" then Except.error "AssertionError: stage.name"
  else (to_single_stage_lockfile stage).map
    (fun lk => [(stage.name, Val.dict lk)])

/-- First path recorded in a lockfile `deps`/`outs` entry (the `path` key is
always serialized first by `lockfileEntry`). -/
def lockEntryPath : Val → String
  | .dict (("path", Val.s p) :: _) => p
  | _ => ""

namespace Model

/-- Generic key/value upsert used by the model state tables (same semantics
as `dictAssign`: replace in place when present, append otherwise). -/
def upsert {β : Type} (kvs : List (String × β)) (key : String) (v : β) :
    List (String × β) :=
  if kvs.any (fun kv => kv.1 == key) then
    kvs.map (fun kv => if kv.1 == key then (key, v) else kv)
  else
    kvs ++ [(key, v)]

/-- Modelled from the spec: a ContentId is an opaque string uniquely
determined by the bytes of the content, never by path or time; the
implementing Hasher module is not part of the given source tree. -/
def hashContent (data : String) : String := "md5-" ++ data

/-- Mutation fingerprint of a file: size, modification time, inode. -/
structure FileStat where
  size : Nat
  mtime : Nat
  inode : Nat
deriving DecidableEq

/-- Link strategy used to materialize cached content into the workspace. -/
inductive LinkKind where
  | hardlink
  | symlink
  | copy
deriving DecidableEq

/-- A workspace file: its stat fingerprint, content bytes, writability, and
how it is currently materialized from the cache (if at all). -/
structure WsFile where
  stat : FileStat
  data : String
  writable : Bool
  link : Option LinkKind
deriving DecidableEq

/-- A hardlinked workspace file shares its inode with the cache entry it was
materialized from. -/
def WsFile.sharesCacheInode (f : WsFile) : Bool := f.link == some LinkKind.hardlink

/-- One row of the persistent mutation-fingerprint table: the stat observed
when the content was last hashed, and the ContentId computed then. -/
structure FpEntry where
  stat : FileStat
  contentId : String
deriving DecidableEq

/-- Modelled from the spec: repository state for the Hasher / Cache Store /
`add` subsystem, whose implementing modules are not part of the given source
tree. `storeCount`, `linkCount`, `unprotectCalls` and `md5Count` are the
instrumentation counters the spec testable properties refer to (store/link
calls and content-hash computations). -/
structure RepoState where
  workspace : List (String × WsFile)
  fingerprints : List (String × FpEntry)
  cacheIds : List String
  outputs : List (String × String)
  storeCount : Nat
  linkCount : Nat
  unprotectCalls : Nat
  md5Count : Nat
deriving DecidableEq

/-- Modelled from the spec: the Hasher (`dvc/remote/local.py` and
`dvc/state.py`, not part of the given source tree). Before hashing it
consults the fingerprint table; if the current (size, mtime, inode) matches
the stored record it returns the stored ContentId without touching file
bytes; otherwise it hashes the content (counted by `md5Count`) and upserts
the fingerprint record. -/
def hashFile (s : RepoState) (path : String) : Option (String × RepoState) :=
  match s.workspace.lookup path with
  | none => none
  | some f =>
    match s.fingerprints.lookup path with
    | some fp =>
      if fp.stat = f.stat then some (fp.contentId, s)
      else
        some (hashContent f.data,
          { s with
            md5Count := s.md5Count + 1
            fingerprints := upsert s.fingerprints path ⟨f.stat, hashContent f.data⟩ })
    | none =>
      some (hashContent f.data,
        { s with
          md5Count := s.md5Count + 1
          fingerprints := upsert s.fingerprints path ⟨f.stat, hashContent f.data⟩ })

/-- Materialization of a cached blob over an existing workspace path with the
given strategy: the file becomes a link of that kind and is protected
(read-only), per spec section 4.2. -/
def materializedFile (strategy : LinkKind) (f : WsFile) : WsFile :=
  { f with writable := false, link := some strategy }

/-- Modelled from the spec and the repository tests: re-add skips checkout
only when the workspace file is already materialized with the configured
strategy and still protected (tests `test_should_relink_on_repeated_add` and
`test_should_protect_on_repeated_add` show that a wrong link kind or stripped
protection makes re-add link again). -/
def linkIntact (strategy : LinkKind) (f : WsFile) : Bool :=
  f.link == some strategy && !f.writable

/-- Modelled from the spec: `add` on a single path (`dvc/repo/add.py`, not
part of the given source tree). The path is hashed through the memoizing
Hasher; when the recorded Output ContentId equals the current hash and the
materialization is intact, add is a no-op beyond the fingerprint refresh done
by `hashFile`; otherwise the content is stored into the cache unless already
present (counted by `storeCount`) and the file is relinked with the
configured strategy (counted by `linkCount`), updating the tracking record. -/
def add (strategy : LinkKind) (s : RepoState) (path : String) :
    Option RepoState :=
  match s.workspace.lookup path with
  | none => none
  | some f =>
    match hashFile s path with
    | none => none
    | some (id, s₁) =>
      if s₁.outputs.lookup path == some id && linkIntact strategy f then
        some s₁
      else
        let s₂ := if s₁.cacheIds.contains id then s₁
          else { s₁ with
                 cacheIds := id :: s₁.cacheIds
                 storeCount := s₁.storeCount + 1 }
        some { s₂ with
               workspace := upsert s₂.workspace path (materializedFile strategy f)
               linkCount := s₂.linkCount + 1
               outputs := upsert s₂.outputs path id }

/-- Modelled from the spec: `unprotect` clears the read-only bit so the user
can edit the file in place; for a linked file the connection to the cache is
broken (the file becomes an independent writable copy) so edits cannot
corrupt shared cache content (spec section 4.2). -/
def unprotect (s : RepoState) (path : String) : RepoState :=
  match s.workspace.lookup path with
  | none => s
  | some f =>
    { s with
      workspace := upsert s.workspace path { f with writable := true, link := none }
      unprotectCalls := s.unprotectCalls + 1 }

/-- Modelled from the spec: `status` recomputes the ContentId of a tracked
path through the memoizing Hasher and compares it with the recorded
ContentId; it performs no other work. -/
def statusCheck (s : RepoState) (path : String) : Option (Bool × RepoState) :=
  match hashFile s path with
  | none => none
  | some (id, s₁) => some (s₁.outputs.lookup path == some id, s₁)

/-- The fingerprint table row for `path`, if any, is consistent with the
actual workspace content: when its stat matches the file, its stored
ContentId is the hash of the file bytes. -/
def fpCoherent (s : RepoState) (path : String) (f : WsFile) : Prop :=
  ∀ fp, s.fingerprints.lookup path = some fp → fp.stat = f.stat →
    fp.contentId = hashContent f.data

/-- Modelled from the spec: output paths are compared structurally as lists
of path components; two outputs overlap when one path equals the other or is
an ancestor directory of it. -/
def overlaps (a b : List String) : Bool :=
  a == b || a.isPrefixOf b || b.isPrefixOf a

/-- Structural errors raised by `add` before anything executes:
`OutputDuplicationError` for an equal path, `OverlappingOutputPathsError` for
an ancestor/descendant path. -/
inductive AddErr where
  | outputDuplication
  | overlappingOutputPaths
deriving DecidableEq

/-- The declared Output paths of all existing tracking records / stages. -/
structure Project where
  records : List (List String)
deriving DecidableEq

/-- Modelled from the spec: adding a path first validates it against every
declared Output of every existing stage (`dvc/repo/add.py` and the graph
checks in `dvc/repo/__init__.py`, not part of the given source tree); any
overlap is a structural error raised before any command executes and no
tracking record is created, otherwise a new record is appended. -/
def addPath (pr : Project) (p : List String) : Except AddErr Project :=
  match pr.records.find? (fun q => overlaps p q) with
  | some q =>
    Except.error (if q == p then AddErr.outputDuplication
      else AddErr.overlappingOutputPaths)
  | none => Except.ok { records := pr.records ++ [p] }

/-- Threshold of the large-directory advisory (`LARGE_DIR_SIZE` in
`dvc/utils/__init__.py`, not part of the given source tree; the spec calls it
a fixed threshold). -/
def LARGE_DIR_SIZE : Nat := 100

/-- Result of a recursive add: how many stages were created, the warnings
emitted, and the command exit code. -/
structure RecursiveAddResult where
  stagesCreated : Nat
  warnings : List String
  exitCode : Nat
deriving DecidableEq

/-- The advisory text recommending tracking the directory as a whole. -/
def largeDirWarning (dir : String) : String :=
  "You are adding a large directory " ++ dir ++
    " recursively, consider tracking it as a whole instead."

/-- Modelled from the spec: recursive add creates one stage per file found
under the directory and, when the operation touches more entries than the
fixed threshold, emits the non-fatal advisory; the operation still completes
with exit code 0 (`dvc/repo/add.py`, not part of the given source tree). -/
def recursiveAdd (dir : String) (files : List String) : RecursiveAddResult :=
  { stagesCreated := files.length
    warnings := if LARGE_DIR_SIZE < files.length then [largeDirWarning dir] else []
    exitCode := 0 }

/-- Workspace file used by the concrete witness states: writable, not linked. -/
def fooFile : WsFile := ⟨⟨3, 0, 7⟩, "foo", true, none⟩

/-- Fresh repository: `foo` exists in the workspace, nothing tracked yet. -/
def freshState : RepoState :=
  { workspace := [("foo", fooFile)]
    fingerprints := []
    cacheIds := []
    outputs := []
    storeCount := 0
    linkCount := 0
    unprotectCalls := 0
    md5Count := 0 }

/-- Repository where `foo` is tracked, cached, fingerprinted, and still
materialized as a protected hardlink. -/
def trackedState : RepoState :=
  { workspace := [("foo", ⟨⟨3, 0, 7⟩, "foo", false, some LinkKind.hardlink⟩)]
    fingerprints := [("foo", ⟨⟨3, 0, 7⟩, hashContent "foo"⟩)]
    cacheIds := [hashContent "foo"]
    outputs := [("foo", hashContent "foo")]
    storeCount := 0
    linkCount := 0
    unprotectCalls := 0
    md5Count := 0 }

/-- Repository where `foo` is tracked with a matching recorded ContentId but
its workspace copy has been unprotected (writable, no longer linked), as
after `dvc unprotect foo`. -/
def unprotectedState : RepoState :=
  { workspace := [("foo", fooFile)]
    fingerprints := [("foo", ⟨⟨3, 0, 7⟩, hashContent "foo"⟩)]
    cacheIds := [hashContent "foo"]
    outputs := [("foo", hashContent "foo")]
    storeCount := 0
    linkCount := 0
    unprotectCalls := 0
    md5Count := 0 }

/-- Project tracking the directory output `dir`. -/
def dirProject : Project := ⟨[["dir"]]⟩

/-- File list longer than the large-directory threshold. -/
def manyFiles : List String := List.replicate 101 "f"

end Model

/-- Concrete output with every flag at its default. -/
def sampleOut : Output := ⟨"out.bin", true, false, PlotField.noPlot, false, "md5", "0abc"⟩

/-- Concrete metric output. -/
def sampleMetric : Output :=
  ⟨"metrics.json", true, false, PlotField.noPlot, true, "md5", "1abc"⟩

/-- Concrete plot output that is also flagged as a metric and carries
non-default flags. -/
def samplePlot : Output :=
  ⟨"plot.csv", false, true, PlotField.plotProps [("x", Val.s "step")], true, "md5", "2abc"⟩

/-- Concrete stage used by the witnesses: a command, one plain dependency,
the default params file and one custom params file, and three outputs. -/
def sampleStage : Stage :=
  { name := "train"
    cmd := some "python train.py"
    wdir := "."
    path_dir := "."
    deps := [Dep.plain ⟨"src/train.py", "md5", "3abc"⟩,
             Dep.param ⟨"params.yaml",
               ParamsVal.dict [("lr", Val.s "0.1"), ("epochs", Val.s "10")]⟩,
             Dep.param ⟨"config/model.yaml", ParamsVal.dict [("depth", Val.s "3")]⟩]
    outs := [sampleOut, sampleMetric, samplePlot]
    frozen := false
    always_changed := false }

/-- The same stage without a command, as produced by `dvc add`. -/
def noCmdStage : Stage := { sampleStage with name := "orphan", cmd := none }

/-- The params dependencies of `sampleStage`: the default file and one custom
file, both dict-valued. -/
def sampleParams : List ParamsDep :=
  [⟨"params.yaml", ParamsVal.dict [("lr", Val.s "0.1"), ("epochs", Val.s "10")]⟩,
   ⟨"config/model.yaml", ParamsVal.dict [("depth", Val.s "3")]⟩]

theorem charsLe_total : ∀ a b : List Char, charsLe a b = true ∨ charsLe b a = true
  | [], _ => Or.inl rfl
  | _ :: _, [] => Or.inr rfl
  | a :: as, b :: bs => by
    by_cases h1 : a < b
    · left; simp [charsLe, h1]
    · by_cases h2 : b < a
      · right; simp [charsLe, h2]
      · rcases charsLe_total as bs with h | h
        · left; simp [charsLe, h1, h2, h]
        · right; simp [charsLe, h1, h2, h]

theorem charsLe_trans :
    ∀ {a b c : List Char}, charsLe a b = true → charsLe b c = true → charsLe a c = true
  | [], _, _, _, _ => rfl
  | _ :: _, [], _, h, _ => by simp [charsLe] at h
  | _ :: _, _ :: _, [], _, h => by simp [charsLe] at h
  | a :: as, b :: bs, c :: cs, h1, h2 => by
    by_cases hab : a < b
    · by_cases hbc : b < c
      · simp [charsLe, lt_trans hab hbc]
      · by_cases hcb : c < b
        · simp [charsLe, hbc, hcb] at h2
        · have hbc' : b = c := le_antisymm (not_lt.mp hcb) (not_lt.mp hbc)
          subst hbc'
          simp [charsLe, hab]
    · by_cases hba : b < a
      · simp [charsLe, hab, hba] at h1
      · have hab' : a = b := le_antisymm (not_lt.mp hba) (not_lt.mp hab)
        subst hab'
        by_cases hac : a < c
        · simp [charsLe, hac]
        · by_cases hca : c < a
          · simp [charsLe, hac, hca] at h2
          · have h1' : charsLe as bs = true := by
              simpa [charsLe, lt_irrefl] using h1
            have h2' : charsLe bs cs = true := by
              simpa [charsLe, hac, hca] using h2
            simpa [charsLe, hac, hca] using charsLe_trans h1' h2'

theorem strLe_total (a b : String) : strLe a b = true ∨ strLe b a = true :=
  charsLe_total a.data b.data

theorem strLe_trans {a b c : String} (h1 : strLe a b = true) (h2 : strLe b c = true) :
    strLe a c = true :=
  charsLe_trans h1 h2

theorem mem_insertSorted (le : α → α → Bool) (a x : α) :
    ∀ l : List α, x ∈ insertSorted le a l ↔ x = a ∨ x ∈ l
  | [] => by simp [insertSorted]
  | b :: bs => by
    by_cases h : le b a = true
    · simp only [insertSorted, h, if_true, List.mem_cons, mem_insertSorted le a x bs]
      tauto
    · simp [insertSorted, h, List.mem_cons]

theorem pairwise_insertSorted (le : α → α → Bool)
    (htot : ∀ a b, le a b = true ∨ le b a = true)
    (htr : ∀ a b c, le a b = true → le b c = true → le a c = true)
    (a : α) : ∀ l : List α,
    l.Pairwise (fun x y => le x y = true) →
    (insertSorted le a l).Pairwise (fun x y => le x y = true)
  | [], _ => by simp [insertSorted]
  | b :: bs, h => by
    rcases List.pairwise_cons.mp h with ⟨hb, hbs⟩
    by_cases hba : le b a = true
    · simp only [insertSorted, hba, if_true]
      refine List.pairwise_cons.mpr ⟨?_, pairwise_insertSorted le htot htr a bs hbs⟩
      intro x hx
      rcases (mem_insertSorted le a x bs).mp hx with rfl | hxbs
      · exact hba
      · exact hb x hxbs
    · have hab : le a b = true := (htot a b).resolve_right (by simpa using hba)
      simp only [insertSorted, hba, if_false]
      refine List.pairwise_cons.mpr ⟨?_, h⟩
      intro x hx
      rcases List.mem_cons.mp hx with rfl | hxbs
      · exact hab
      · exact htr a b x hab (hb x hxbs)

theorem pairwise_stableSort_aux (le : α → α → Bool)
    (htot : ∀ a b, le a b = true ∨ le b a = true)
    (htr : ∀ a b c, le a b = true → le b c = true → le a c = true) :
    ∀ (l acc : List α), acc.Pairwise (fun x y => le x y = true) →
    (l.foldl (fun acc a => insertSorted le a acc) acc).Pairwise
      (fun x y => le x y = true)
  | [], _, h => h
  | a :: as, acc, h =>
    pairwise_stableSort_aux le htot htr as _ (pairwise_insertSorted le htot htr a acc h)

theorem pairwise_stableSort (le : α → α → Bool)
    (htot : ∀ a b, le a b = true ∨ le b a = true)
    (htr : ∀ a b c, le a b = true → le b c = true → le a c = true)
    (l : List α) :
    (stableSort le l).Pairwise (fun x y => le x y = true) :=
  pairwise_stableSort_aux le htot htr l [] (by simp)

theorem pairwise_sort_by_path (path : α → String) (l : List α) :
    (sort_by_path path l).Pairwise (fun a b => strLe (path a) (path b) = true) :=
  pairwise_stableSort _ (fun a b => strLe_total (path a) (path b))
    (fun _ _ _ h1 h2 => strLe_trans h1 h2) l

theorem pairwise_sortStrings (l : List String) :
    (sortStrings l).Pairwise (fun a b => strLe a b = true) :=
  pairwise_stableSort _ strLe_total (fun _ _ _ h1 h2 => strLe_trans h1 h2) l

theorem insertSorted_perm (le : α → α → Bool) (a : α) :
    ∀ l : List α, (insertSorted le a l).Perm (a :: l)
  | [] => List.Perm.refl _
  | b :: bs => by
    by_cases h : le b a = true
    · simp only [insertSorted, h, if_true]
      exact ((insertSorted_perm le a bs).cons b).trans (List.Perm.swap a b bs)
    · simp [insertSorted, h]

theorem stableSort_perm_aux (le : α → α → Bool) :
    ∀ (l acc : List α),
    (l.foldl (fun acc a => insertSorted le a acc) acc).Perm (acc ++ l)
  | [], acc => by simp
  | a :: as, acc => by
    refine (stableSort_perm_aux le as (insertSorted le a acc)).trans ?_
    refine ((insertSorted_perm le a acc).append_right as).trans ?_
    exact List.perm_middle.symm

theorem stableSort_perm (le : α → α → Bool) (l : List α) :
    (stableSort le l).Perm l := by
  simpa using stableSort_perm_aux le l []

theorem length_stableSort (le : α → α → Bool) (l : List α) :
    (stableSort le l).length = l.length :=
  (stableSort_perm le l).length_eq

theorem stableSort_eq_nil_iff (le : α → α → Bool) (l : List α) :
    stableSort le l = [] ↔ l = [] := by
  constructor
  · intro h
    have := length_stableSort le l
    rw [h] at this
    exact List.length_eq_zero.mp this.symm
  · rintro rfl
    rfl

theorem lookup_eq_none_of_not_mem {β : Type} (key : String) :
    ∀ kvs : List (String × β), key ∉ kvs.map Prod.fst → kvs.lookup key = none
  | [], _ => rfl
  | (k, v) :: rest, h => by
    simp only [List.map_cons, List.mem_cons] at h
    push_neg at h
    have hk : (key == k) = false := by simpa [beq_iff_eq] using h.1
    simpa [List.lookup, hk] using lookup_eq_none_of_not_mem key rest h.2

theorem mem_of_lookup_eq_some {β : Type} (key : String) (v : β) :
    ∀ kvs : List (String × β), kvs.lookup key = some v → (key, v) ∈ kvs
  | [], h => by simp [List.lookup] at h
  | (k, w) :: rest, h => by
    by_cases hk : (key == k) = true
    · have : w = v := by simpa [List.lookup, hk] using h
      subst this
      exact List.mem_cons.mpr (Or.inl (by rw [beq_iff_eq.mp hk]))
    · have hk' : (key == k) = false := by simpa using hk
      have : rest.lookup key = some v := by simpa [List.lookup, hk'] using h
      exact List.mem_cons.mpr (Or.inr (mem_of_lookup_eq_some key v rest this))

theorem dictAssign_of_fresh {β : Type} (kvs : List (String × β)) (key : String) (v : β)
    (h : key ∉ kvs.map Prod.fst) : dictAssign kvs key v = kvs ++ [(key, v)] := by
  have hc : ¬ kvs.any (fun kv => kv.1 == key) = true := by
    intro hc
    rcases List.any_eq_true.mp hc with ⟨kv, hmem, hkv⟩
    exact h (List.mem_map.mpr ⟨kv, hmem, beq_iff_eq.mp hkv⟩)
  simp [dictAssign, hc]

theorem lookup_append_fresh {β : Type} (key : String) (v : β) :
    ∀ kvs : List (String × β), key ∉ kvs.map Prod.fst →
      (kvs ++ [(key, v)]).lookup key = some v
  | [], _ => by simp [List.lookup]
  | (k, w) :: rest, h => by
    simp only [List.map_cons, List.mem_cons] at h
    push_neg at h
    have hk : (key == k) = false := by simpa [beq_iff_eq] using h.1
    simpa [List.lookup, hk] using lookup_append_fresh key v rest h.2

theorem moveToFront_append_fresh {β : Type} (kvs : List (String × β)) (key : String)
    (v : β) (h : key ∉ kvs.map Prod.fst) :
    moveToFront (kvs ++ [(key, v)]) key = (key, v) :: kvs := by
  unfold moveToFront
  rw [lookup_append_fresh key v kvs h]
  rw [List.filter_append]
  have h1 : kvs.filter (fun kv => !(kv.1 == key)) = kvs := by
    refine List.filter_eq_self.mpr ?_
    intro kv hmem
    have hne : kv.1 ≠ key := fun hEq => h (List.mem_map.mpr ⟨kv, hmem, hEq⟩)
    simp [hne]
  have h2 : List.filter (fun kv => !(kv.1 == key)) [(key, v)] = [] := by simp
  rw [h1, h2, List.append_nil]

theorem mem_dictAssign {β : Type} (kvs : List (String × β)) (key : String) (v : β)
    (kv : String × β) (h : kv ∈ dictAssign kvs key v) : kv ∈ kvs ∨ kv = (key, v) := by
  unfold dictAssign at h
  by_cases hc : kvs.any (fun kv => kv.1 == key) = true
  · rw [if_pos hc] at h
    rcases List.mem_map.mp h with ⟨kv0, hkv0, heq⟩
    by_cases hk : (kv0.1 == key) = true
    · right
      rw [if_pos hk] at heq
      exact heq.symm
    · left
      rw [if_neg hk] at heq
      exact heq ▸ hkv0
  · rw [if_neg hc] at h
    rcases List.mem_append.mp h with h | h
    · exact Or.inl h
    · exact Or.inr (by simpa using h)

theorem mem_moveToFront {β : Type} (kvs : List (String × β)) (key : String)
    (kv : String × β) (h : kv ∈ moveToFront kvs key) : kv ∈ kvs := by
  unfold moveToFront at h
  cases hl : kvs.lookup key with
  | none => rw [hl] at h; exact h
  | some v =>
    rw [hl] at h
    rcases List.mem_cons.mp h with rfl | h
    · exact mem_of_lookup_eq_some key v kvs hl
    · exact (List.mem_filter.mp h).1

theorem upsert_cons {β : Type} (k : String) (w : β) (rest : List (String × β))
    (key : String) (v : β) (h : (k == key) = false) :
    Model.upsert ((k, w) :: rest) key v = (k, w) :: Model.upsert rest key v := by
  have hne : k ≠ key := beq_eq_false_iff_ne.mp h
  by_cases hr : rest.any (fun kv => kv.1 == key) = true
  · simp [Model.upsert, List.any_cons, h, hr, hne]
  · simp [Model.upsert, List.any_cons, h, hr, hne]

theorem lookup_upsert {β : Type} (key : String) (v : β) :
    ∀ kvs : List (String × β), (Model.upsert kvs key v).lookup key = some v
  | [] => by simp [Model.upsert, List.lookup]
  | (k, w) :: rest => by
    by_cases hk : (k == key) = true
    · have hke : k = key := beq_iff_eq.mp hk
      subst hke
      simp [Model.upsert, List.any_cons, List.lookup]
    · have hk' : (k == key) = false := by simpa using hk
      rw [upsert_cons k w rest key v hk']
      have hkey : (key == k) = false := by
        simp only [beq_eq_false_iff_ne] at hk' ⊢
        exact fun hEq => hk' hEq.symm
      simpa [List.lookup, hkey] using lookup_upsert key v rest

/-- C10: `to_single_stage_lockfile` is defined only for stages with a truthy
command: the `assert stage.cmd` guard turns a `None` or empty command into an
error, and every successfully produced lock record starts with the `cmd`
key, so no record without `cmd` is ever produced. -/
theorem lockfile_requires_cmd (stage : Stage) :
    (cmdTruthy stage.cmd = false →
      to_single_stage_lockfile stage = Except.error "AssertionError: stage.cmd") ∧
    (∀ lk, to_single_stage_lockfile stage = Except.ok lk →
      cmdTruthy stage.cmd = true ∧
      lk.head? = some (PARAM_CMD, Val.s (stage.cmd.getD ""))) := by
  constructor
  · intro h
    simp [to_single_stage_lockfile, h]
  · intro lk h
    by_cases hc : cmdTruthy stage.cmd = true
    · refine ⟨hc, ?_⟩
      simp only [to_single_stage_lockfile, hc, if_true, Except.ok.injEq] at h
      subst h
      split <;> split <;> split <;> simp
    · rw [to_single_stage_lockfile, if_neg hc] at h
      exact absurd h (by simp)

/-- Witness for C10 at the concrete command-less stage. -/
theorem lockfile_requires_cmd_witness :
    to_single_stage_lockfile noCmdStage = Except.error "AssertionError: stage.cmd" :=
  (lockfile_requires_cmd noCmdStage).1 rfl

/-- C2: adding a path whose Output would overlap a declared Output of an
existing stage (equal, ancestor, or descendant path) fails with a structural
error and creates no new tracking record. -/
theorem add_overlapping_output_fails (pr : Model.Project) (p q : List String)
    (hq : q ∈ pr.records) (hov : Model.overlaps p q = true) :
    (∃ e, Model.addPath pr p = Except.error e) ∧
    ∀ pr', Model.addPath pr p ≠ Except.ok pr' := by
  have hfind : (pr.records.find? (fun r => Model.overlaps p r)).isSome = true :=
    List.find?_isSome.mpr ⟨q, hq, hov⟩
  rcases Option.isSome_iff_exists.mp hfind with ⟨r, hr⟩
  constructor
  · refine ⟨if r == p then Model.AddErr.outputDuplication
      else Model.AddErr.overlappingOutputPaths, ?_⟩
    unfold Model.addPath
    rw [hr]
  · intro pr' hok
    simp [Model.addPath, hr] at hok

/-- Witness for C2: adding `dir/file2` while `dir` is tracked fails. -/
theorem add_overlapping_output_fails_witness :
    ["dir"] ∈ Model.dirProject.records ∧
    Model.overlaps ["dir", "file2"] ["dir"] = true ∧
    (∃ e, Model.addPath Model.dirProject ["dir", "file2"] = Except.error e) ∧
    ∀ pr', Model.addPath Model.dirProject ["dir", "file2"] ≠ Except.ok pr' := by
  refine ⟨by decide, by decide, ?_, ?_⟩
  · exact (add_overlapping_output_fails Model.dirProject ["dir", "file2"] ["dir"]
      (by decide) (by decide)).1
  · exact (add_overlapping_output_fails Model.dirProject ["dir", "file2"] ["dir"]
      (by decide) (by decide)).2

/-- C8: a recursive add touching more entries than the fixed threshold emits
the non-fatal advisory and still completes successfully with exit status 0,
creating one stage per file. -/
theorem large_directory_warning (dir : String) (files : List String)
    (h : Model.LARGE_DIR_SIZE < files.length) :
    (Model.recursiveAdd dir files).warnings = [Model.largeDirWarning dir] ∧
    (Model.recursiveAdd dir files).exitCode = 0 ∧
    (Model.recursiveAdd dir files).stagesCreated = files.length := by
  refine ⟨?_, rfl, rfl⟩
  simp [Model.recursiveAdd, h]

/-- Witness for C8 at a 101-file directory. -/
theorem large_directory_warning_witness :
    Model.LARGE_DIR_SIZE < Model.manyFiles.length ∧
    ((Model.recursiveAdd "large-dir" Model.manyFiles).warnings
        = [Model.largeDirWarning "large-dir"] ∧
      (Model.recursiveAdd "large-dir" Model.manyFiles).exitCode = 0 ∧
      (Model.recursiveAdd "large-dir" Model.manyFiles).stagesCreated
        = Model.manyFiles.length) :=
  ⟨by decide, large_directory_warning "large-dir" Model.manyFiles (by decide)⟩

theorem serialize_outs_go_eq (l : List Output) :
    _serialize_outs_go l =
      ((l.filter (fun o => !o.plot.truthy && !o.metric)).map _serialize_out,
       (l.filter (fun o => !o.plot.truthy && o.metric)).map _serialize_out,
       (l.filter (fun o => o.plot.truthy)).map _serialize_out) := by
  induction l with
  | nil => rfl
  | cons out rest ih =>
    by_cases hp : out.plot.truthy = true
    · simp [_serialize_outs_go, ih, List.filter, hp]
    · by_cases hm : out.metric = true
      · simp [_serialize_outs_go, ih, List.filter, hp, hm]
      · simp [_serialize_outs_go, ih, List.filter, hp, hm]

/-- C9: `_serialize_outs` places each output of the path-sorted list in
exactly one bucket, `plot` taking precedence over `metric`: the `outs` bucket
holds exactly the outputs with neither flag, `metrics` exactly the
metric-but-not-plot outputs, and `plots` exactly the plot-flagged outputs. -/
theorem serialize_outs_buckets (outputs : List Output) :
    _serialize_outs outputs =
      (((sort_by_path Output.def_path outputs).filter
          (fun o => !o.plot.truthy && !o.metric)).map _serialize_out,
       ((sort_by_path Output.def_path outputs).filter
          (fun o => !o.plot.truthy && o.metric)).map _serialize_out,
       ((sort_by_path Output.def_path outputs).filter
          (fun o => o.plot.truthy)).map _serialize_out) := by
  simp only [_serialize_outs, serialize_outs_go_eq]

theorem lockEntryPath_lockfileEntry (p t c : String) :
    lockEntryPath (lockfileEntry p t c) = p := rfl

theorem params_values_dicts_aux :
    ∀ (l : List ParamsDep) (acc : List (String × Val)),
    (∀ kv ∈ acc, ∃ fkvs, kv.2 = Val.dict fkvs) →
    ∀ kv ∈ l.foldl paramsValuesStep acc, ∃ fkvs, kv.2 = Val.dict fkvs
  | [], _, h => h
  | p :: rest, acc, h => by
    rw [List.foldl_cons]
    refine params_values_dicts_aux rest (paramsValuesStep acc p) ?_
    intro kv hm
    cases hp : p.params with
    | dict d =>
      simp only [paramsValuesStep, hp] at hm
      by_cases hd : (p.def_path == DEFAULT_PARAMS_FILE) = true
      · rw [if_pos hd] at hm
        have hm' := mem_moveToFront _ _ _ hm
        rcases mem_dictAssign _ _ _ _ hm' with hin | rfl
        · exact h kv hin
        · exact ⟨_, rfl⟩
      · rw [if_neg hd] at hm
        rcases mem_dictAssign _ _ _ _ hm with hin | rfl
        · exact h kv hin
        · exact ⟨_, rfl⟩
    | list ks =>
      simp only [paramsValuesStep, hp] at hm
      exact h kv hm

theorem params_values_dicts (params : List ParamsDep) :
    ∀ kv ∈ _serialize_params_values params, ∃ fkvs, kv.2 = Val.dict fkvs :=
  params_values_dicts_aux _ [] (by simp)

/-- C4: for every named stage with a command, `to_lockfile` maps the stage
name to a record that starts with `cmd`, whose `deps` and `outs` lists (when
present) consist of `(path, checksum)` entries sorted by path, and whose
`params` entry (when present) maps each parameter file to a dict of key/value
pairs. -/
theorem lockfile_shape_and_sorted (stage : Stage)
    (hc : cmdTruthy stage.cmd = true) (hn : (stage.name == "") = false) :
    ∃ depsL paramsL outsL,
      depsL = (sort_by_path PlainDep.def_path (split_params_deps stage.deps).2).map
          (fun d => lockfileEntry d.def_path d.checksum_type d.checksum) ∧
      outsL = (sort_by_path Output.def_path stage.outs).map
          (fun o => lockfileEntry o.def_path o.checksum_type o.checksum) ∧
      paramsL = _serialize_params_values (split_params_deps stage.deps).1 ∧
      to_lockfile stage = Except.ok [(stage.name, Val.dict (
        [(PARAM_CMD, Val.s (stage.cmd.getD ""))]
        ++ (if depsL.isEmpty then [] else [(PARAM_DEPS, Val.list depsL)])
        ++ (if paramsL.isEmpty then [] else [(PARAM_PARAMS, Val.dict paramsL)])
        ++ (if outsL.isEmpty then [] else [(PARAM_OUTS, Val.list outsL)])))] ∧
      (depsL.map lockEntryPath).Pairwise (fun a b => strLe a b = true) ∧
      (outsL.map lockEntryPath).Pairwise (fun a b => strLe a b = true) ∧
      (∀ kv ∈ paramsL, ∃ fkvs, kv.2 = Val.dict fkvs) := by
  refine ⟨_, _, _, rfl, rfl, rfl, ?_, ?_, ?_, ?_⟩
  · have hn' : ¬ ((stage.name == "") = true) := by simp [hn]
    unfold to_lockfile to_single_stage_lockfile
    rw [if_neg hn', if_pos hc]
    simp only [Except.map]
    split <;> split <;> split <;> simp
  · simpa [List.map_map, List.pairwise_map, Function.comp, lockEntryPath_lockfileEntry]
      using pairwise_sort_by_path PlainDep.def_path (split_params_deps stage.deps).2
  · simpa [List.map_map, List.pairwise_map, Function.comp, lockEntryPath_lockfileEntry]
      using pairwise_sort_by_path Output.def_path stage.outs
  · exact params_values_dicts (split_params_deps stage.deps).1

/-- Witness for C4 at the concrete sample stage. -/
theorem lockfile_shape_and_sorted_witness :
    cmdTruthy sampleStage.cmd = true ∧ (sampleStage.name == "") = false ∧
    (∃ depsL paramsL outsL,
      depsL = (sort_by_path PlainDep.def_path (split_params_deps sampleStage.deps).2).map
          (fun d => lockfileEntry d.def_path d.checksum_type d.checksum) ∧
      outsL = (sort_by_path Output.def_path sampleStage.outs).map
          (fun o => lockfileEntry o.def_path o.checksum_type o.checksum) ∧
      paramsL = _serialize_params_values (split_params_deps sampleStage.deps).1 ∧
      to_lockfile sampleStage = Except.ok [(sampleStage.name, Val.dict (
        [(PARAM_CMD, Val.s (sampleStage.cmd.getD ""))]
        ++ (if depsL.isEmpty then [] else [(PARAM_DEPS, Val.list depsL)])
        ++ (if paramsL.isEmpty then [] else [(PARAM_PARAMS, Val.dict paramsL)])
        ++ (if outsL.isEmpty then [] else [(PARAM_OUTS, Val.list outsL)])))] ∧
      (depsL.map lockEntryPath).Pairwise (fun a b => strLe a b = true) ∧
      (outsL.map lockEntryPath).Pairwise (fun a b => strLe a b = true) ∧
      (∀ kv ∈ paramsL, ∃ fkvs, kv.2 = Val.dict fkvs)) :=
  ⟨rfl, rfl, lockfile_shape_and_sorted sampleStage rfl rfl⟩

/-- C5: `to_pipeline_file` keeps only truthy values, so every key with an
empty or default value is omitted: empty `deps`/`params`/`outs`/`metrics`/
`plots` lists and false `frozen`/`always_changed` flags never appear in the
record, and an output whose flags are all at their defaults serializes as a
bare path string. -/
theorem pipeline_file_omits_empty_defaults (stage : Stage) :
    ∃ r, to_pipeline_file stage = [(stage.name, Val.dict r)] ∧
      (∀ kv ∈ r, Val.truthy kv.2 = true) ∧
      ((split_params_deps stage.deps).2 = [] → ∀ v, (PARAM_DEPS, v) ∉ r) ∧
      (_serialize_params_keys (split_params_deps stage.deps).1 = [] →
        ∀ v, (PARAM_PARAMS, v) ∉ r) ∧
      ((_serialize_outs stage.outs).1 = [] → ∀ v, (PARAM_OUTS, v) ∉ r) ∧
      ((_serialize_outs stage.outs).2.1 = [] → ∀ v, (PARAM_METRICS, v) ∉ r) ∧
      ((_serialize_outs stage.outs).2.2 = [] → ∀ v, (PARAM_PLOTS, v) ∉ r) ∧
      (stage.frozen = false → ∀ v, (PARAM_FROZEN, v) ∉ r) ∧
      (stage.always_changed = false → ∀ v, (PARAM_ALWAYS_CHANGED, v) ∉ r) ∧
      (∀ out : Output, out.use_cache = true → out.persist = false →
        (∀ l, out.plot = PlotField.plotProps l → l = []) →
        _serialize_out out = Val.s out.def_path) := by
  refine ⟨_, rfl, ?_, ?_, ?_, ?_, ?_, ?_, ?_, ?_, ?_⟩
  · intro kv hkv
    exact (List.mem_filter.mp hkv).2
  · intro hE v hv
    rcases List.mem_filter.mp hv with ⟨hmem, ht⟩
    rw [hE] at hmem
    simp [PARAM_CMD, PARAM_WDIR, PARAM_DEPS, PARAM_PARAMS, PARAM_OUTS,
      PARAM_METRICS, PARAM_PLOTS, PARAM_FROZEN, PARAM_ALWAYS_CHANGED,
      Prod.mk.injEq, sortStrings, stableSort] at hmem
    rcases hmem with ⟨rfl, rfl⟩
    simp [Val.truthy] at ht
  · intro hE v hv
    rcases List.mem_filter.mp hv with ⟨hmem, ht⟩
    rw [hE] at hmem
    simp [PARAM_CMD, PARAM_WDIR, PARAM_DEPS, PARAM_PARAMS, PARAM_OUTS,
      PARAM_METRICS, PARAM_PLOTS, PARAM_FROZEN, PARAM_ALWAYS_CHANGED,
      Prod.mk.injEq] at hmem
    rcases hmem with ⟨rfl, rfl⟩
    simp [Val.truthy] at ht
  · intro hE v hv
    rcases List.mem_filter.mp hv with ⟨hmem, ht⟩
    rw [hE] at hmem
    simp [PARAM_CMD, PARAM_WDIR, PARAM_DEPS, PARAM_PARAMS, PARAM_OUTS,
      PARAM_METRICS, PARAM_PLOTS, PARAM_FROZEN, PARAM_ALWAYS_CHANGED,
      Prod.mk.injEq] at hmem
    rcases hmem with ⟨rfl, rfl⟩
    simp [Val.truthy] at ht
  · intro hE v hv
    rcases List.mem_filter.mp hv with ⟨hmem, ht⟩
    rw [hE] at hmem
    simp [PARAM_CMD, PARAM_WDIR, PARAM_DEPS, PARAM_PARAMS, PARAM_OUTS,
      PARAM_METRICS, PARAM_PLOTS, PARAM_FROZEN, PARAM_ALWAYS_CHANGED,
      Prod.mk.injEq] at hmem
    rcases hmem with ⟨rfl, rfl⟩
    simp [Val.truthy] at ht
  · intro hE v hv
    rcases List.mem_filter.mp hv with ⟨hmem, ht⟩
    rw [hE] at hmem
    simp [PARAM_CMD, PARAM_WDIR, PARAM_DEPS, PARAM_PARAMS, PARAM_OUTS,
      PARAM_METRICS, PARAM_PLOTS, PARAM_FROZEN, PARAM_ALWAYS_CHANGED,
      Prod.mk.injEq] at hmem
    rcases hmem with ⟨rfl, rfl⟩
    simp [Val.truthy] at ht
  · intro hE v hv
    rcases List.mem_filter.mp hv with ⟨hmem, ht⟩
    rw [hE] at hmem
    simp [PARAM_CMD, PARAM_WDIR, PARAM_DEPS, PARAM_PARAMS, PARAM_OUTS,
      PARAM_METRICS, PARAM_PLOTS, PARAM_FROZEN, PARAM_ALWAYS_CHANGED,
      Prod.mk.injEq] at hmem
    rcases hmem with ⟨rfl, rfl⟩
    simp [Val.truthy] at ht
  · intro hE v hv
    rcases List.mem_filter.mp hv with ⟨hmem, ht⟩
    rw [hE] at hmem
    simp [PARAM_CMD, PARAM_WDIR, PARAM_DEPS, PARAM_PARAMS, PARAM_OUTS,
      PARAM_METRICS, PARAM_PLOTS, PARAM_FROZEN, PARAM_ALWAYS_CHANGED,
      Prod.mk.injEq] at hmem
    rcases hmem with ⟨rfl, rfl⟩
    simp [Val.truthy] at ht
  · intro out hcache hpersist hplot
    have hmatch : (match out.plot with
        | PlotField.plotProps l => if l.isEmpty then [] else l
        | _ => []) = ([] : List (String × Val)) := by
      cases hp : out.plot with
      | plotProps l =>
        have := hplot l hp
        subst this
        simp
      | noPlot => rfl
      | plotFlag => rfl
    have hf : _get_flags out = [] := by
      simp [_get_flags, hcache, hpersist, hmatch]
    simp [_serialize_out, hf]

/-- Witness for C5 at the concrete command-less stage. -/
theorem pipeline_file_omits_empty_defaults_witness :
    ∃ r, to_pipeline_file noCmdStage = [(noCmdStage.name, Val.dict r)] ∧
      (∀ kv ∈ r, Val.truthy kv.2 = true) ∧
      ((split_params_deps noCmdStage.deps).2 = [] → ∀ v, (PARAM_DEPS, v) ∉ r) ∧
      (_serialize_params_keys (split_params_deps noCmdStage.deps).1 = [] →
        ∀ v, (PARAM_PARAMS, v) ∉ r) ∧
      ((_serialize_outs noCmdStage.outs).1 = [] → ∀ v, (PARAM_OUTS, v) ∉ r) ∧
      ((_serialize_outs noCmdStage.outs).2.1 = [] → ∀ v, (PARAM_METRICS, v) ∉ r) ∧
      ((_serialize_outs noCmdStage.outs).2.2 = [] → ∀ v, (PARAM_PLOTS, v) ∉ r) ∧
      (noCmdStage.frozen = false → ∀ v, (PARAM_FROZEN, v) ∉ r) ∧
      (noCmdStage.always_changed = false → ∀ v, (PARAM_ALWAYS_CHANGED, v) ∉ r) ∧
      (∀ out : Output, out.use_cache = true → out.persist = false →
        (∀ l, out.plot = PlotField.plotProps l → l = []) →
        _serialize_out out = Val.s out.def_path) :=
  pipeline_file_omits_empty_defaults noCmdStage

/-- C1 counterexample: for the tracked path `foo` of `unprotectedState` the
current content hash equals the recorded ContentId, yet re-adding it performs
a relink and re-applies read-only protection, because the workspace copy had
been unprotected; so re-add is not a no-op for every tracked path whose hash
matches. -/
theorem readd_noop_counterexample :
    Model.unprotectedState.workspace.lookup "foo" = some Model.fooFile ∧
    Model.unprotectedState.outputs.lookup "foo"
      = some (Model.hashContent Model.fooFile.data) ∧
    ∃ s', Model.add Model.LinkKind.hardlink Model.unprotectedState "foo" = some s' ∧
      s'.linkCount = Model.unprotectedState.linkCount + 1 ∧
      s'.workspace.lookup "foo"
        = some (Model.materializedFile Model.LinkKind.hardlink Model.fooFile) := by
  refine ⟨rfl, rfl, ⟨_, rfl, ?_, ?_⟩⟩
  · decide
  · decide

/-- C1 (amended): for a tracked path whose current content hash equals the
recorded ContentId, whose fingerprint row is coherent, and whose workspace
file is still materialized with the configured strategy and protected,
re-adding is a no-op beyond refreshing the mutation fingerprint: no copy into
the cache, no relink, no protection change, and the workspace, cache and
tracking records are untouched. -/
theorem readd_intact_noop (strategy : Model.LinkKind) (s : Model.RepoState)
    (path : String) (f : Model.WsFile)
    (hf : s.workspace.lookup path = some f)
    (hco : Model.fpCoherent s path f)
    (hm : s.outputs.lookup path = some (Model.hashContent f.data))
    (hintact : Model.linkIntact strategy f = true) :
    ∃ s', Model.add strategy s path = some s' ∧
      s'.workspace = s.workspace ∧
      s'.cacheIds = s.cacheIds ∧
      s'.outputs = s.outputs ∧
      s'.storeCount = s.storeCount ∧
      s'.linkCount = s.linkCount ∧
      s'.unprotectCalls = s.unprotectCalls := by
  have hhash : ∃ s₁, Model.hashFile s path = some (Model.hashContent f.data, s₁) ∧
      s₁.workspace = s.workspace ∧ s₁.cacheIds = s.cacheIds ∧
      s₁.outputs = s.outputs ∧ s₁.storeCount = s.storeCount ∧
      s₁.linkCount = s.linkCount ∧ s₁.unprotectCalls = s.unprotectCalls := by
    simp only [Model.hashFile, hf]
    split
    next fp heq =>
      by_cases hstat : fp.stat = f.stat
      · rw [if_pos hstat, hco fp heq hstat]
        exact ⟨s, rfl, rfl, rfl, rfl, rfl, rfl, rfl⟩
      · rw [if_neg hstat]
        exact ⟨_, rfl, rfl, rfl, rfl, rfl, rfl, rfl⟩
    next heq =>
      exact ⟨_, rfl, rfl, rfl, rfl, rfl, rfl, rfl⟩
  rcases hhash with ⟨s₁, hH, hw, hcache, hout, hst, hlk, hup⟩
  refine ⟨s₁, ?_, hw, hcache, hout, hst, hlk, hup⟩
  simp only [Model.add, hf, hH]
  have hcond : (s₁.outputs.lookup path == some (Model.hashContent f.data)
      && Model.linkIntact strategy f) = true := by
    rw [hout, hm, hintact]
    simp
  rw [if_pos hcond]

/-- Witness for the amended C1 at the intact tracked state. -/
theorem readd_intact_noop_witness :
    ∃ s', Model.add Model.LinkKind.hardlink Model.trackedState "foo" = some s' ∧
      s'.workspace = Model.trackedState.workspace ∧
      s'.cacheIds = Model.trackedState.cacheIds ∧
      s'.outputs = Model.trackedState.outputs ∧
      s'.storeCount = Model.trackedState.storeCount ∧
      s'.linkCount = Model.trackedState.linkCount ∧
      s'.unprotectCalls = Model.trackedState.unprotectCalls :=
  readd_intact_noop Model.LinkKind.hardlink Model.trackedState "foo"
    ⟨⟨3, 0, 7⟩, "foo", false, some Model.LinkKind.hardlink⟩ rfl
    (by intro fp hfp _; cases hfp; rfl) rfl rfl

/-- C3: when the stored fingerprint of a file matches its current
(size, mtime, inode), the Hasher returns the stored ContentId with the state
unchanged (no byte read, no hash computation); consequently, after any `add`
of that path, a subsequent status check returns in-sync and again leaves the
state unchanged, performing zero additional content-hash computations. -/
theorem hasher_memoization (s : Model.RepoState) (path : String)
    (f : Model.WsFile) (fp : Model.FpEntry)
    (hf : s.workspace.lookup path = some f)
    (hfp : s.fingerprints.lookup path = some fp)
    (hstat : fp.stat = f.stat) :
    Model.hashFile s path = some (fp.contentId, s) ∧
    (∀ strategy s', Model.add strategy s path = some s' →
      Model.statusCheck s' path = some (true, s')) := by
  have hH : Model.hashFile s path = some (fp.contentId, s) := by
    simp only [Model.hashFile, hf, hfp]
    rw [if_pos hstat]
  refine ⟨hH, ?_⟩
  intro strategy s' hadd
  simp only [Model.add, hf, hH] at hadd
  by_cases hcond : (s.outputs.lookup path == some fp.contentId
      && Model.linkIntact strategy f) = true
  · rw [if_pos hcond] at hadd
    cases hadd
    have hcond' := hcond
    simp only [Bool.and_eq_true] at hcond'
    simp only [Model.statusCheck, hH]
    rw [hcond'.1]
  · rw [if_neg hcond] at hadd
    by_cases hc2 : s.cacheIds.contains fp.contentId = true
    · rw [if_pos hc2] at hadd
      cases hadd
      simp only [Model.statusCheck, Model.hashFile, lookup_upsert, hfp,
        Model.materializedFile]
      rw [if_pos hstat]
      simp [lookup_upsert]
    · rw [if_neg hc2] at hadd
      cases hadd
      simp only [Model.statusCheck, Model.hashFile, lookup_upsert, hfp,
        Model.materializedFile]
      rw [if_pos hstat]
      simp [lookup_upsert]

/-- Witness for C3 at the intact tracked state. -/
theorem hasher_memoization_witness :
    Model.hashFile Model.trackedState "foo"
      = some (Model.hashContent "foo", Model.trackedState) ∧
    (∀ strategy s', Model.add strategy Model.trackedState "foo" = some s' →
      Model.statusCheck s' "foo" = some (true, s')) :=
  hasher_memoization Model.trackedState "foo"
    ⟨⟨3, 0, 7⟩, "foo", false, some Model.LinkKind.hardlink⟩
    ⟨⟨3, 0, 7⟩, Model.hashContent "foo"⟩ rfl rfl rfl

theorem add_hardlink_protects_aux (s : Model.RepoState) (path : String)
    (f : Model.WsFile) (hf : s.workspace.lookup path = some f) :
    ∃ s' f', Model.add Model.LinkKind.hardlink s path = some s' ∧
      s'.workspace.lookup path = some f' ∧
      f'.sharesCacheInode = true ∧ f'.writable = false := by
  have hhash : ∃ id s₁, Model.hashFile s path = some (id, s₁) ∧
      s₁.workspace = s.workspace := by
    simp only [Model.hashFile, hf]
    split
    next fp heq =>
      by_cases hstat : fp.stat = f.stat
      · rw [if_pos hstat]
        exact ⟨_, _, rfl, rfl⟩
      · rw [if_neg hstat]
        exact ⟨_, _, rfl, rfl⟩
    next heq =>
      exact ⟨_, _, rfl, rfl⟩
  rcases hhash with ⟨id, s₁, hH, hw⟩
  simp only [Model.add, hf, hH]
  by_cases hcond : (s₁.outputs.lookup path == some id
      && Model.linkIntact Model.LinkKind.hardlink f) = true
  · rw [if_pos hcond]
    have hcond' := hcond
    simp only [Model.linkIntact, Bool.and_eq_true] at hcond'
    refine ⟨s₁, f, rfl, by rw [hw]; exact hf, ?_, ?_⟩
    · exact hcond'.2.1
    · simpa using hcond'.2.2
  · rw [if_neg hcond]
    by_cases hc2 : s₁.cacheIds.contains id = true
    · rw [if_pos hc2]
      exact ⟨_, Model.materializedFile Model.LinkKind.hardlink f, rfl,
        lookup_upsert path _ s₁.workspace, rfl, rfl⟩
    · rw [if_neg hc2]
      exact ⟨_, Model.materializedFile Model.LinkKind.hardlink f, rfl,
        lookup_upsert path _ s₁.workspace, rfl, rfl⟩

/-- C7: with the hardlink strategy, after `add` the workspace file shares an
inode with its cache entry and is read-only; and even after an explicit
`unprotect` of the workspace file, re-adding restores the shared inode and
the read-only protection. -/
theorem hardlink_add_shares_inode_and_protects (s : Model.RepoState)
    (path : String) (f : Model.WsFile)
    (hf : s.workspace.lookup path = some f) :
    (∃ s' f', Model.add Model.LinkKind.hardlink s path = some s' ∧
      s'.workspace.lookup path = some f' ∧
      f'.sharesCacheInode = true ∧ f'.writable = false) ∧
    (∃ s₂ f₂, Model.add Model.LinkKind.hardlink (Model.unprotect s path) path
        = some s₂ ∧
      s₂.workspace.lookup path = some f₂ ∧
      f₂.sharesCacheInode = true ∧ f₂.writable = false) := by
  refine ⟨add_hardlink_protects_aux s path f hf, ?_⟩
  have hf' : (Model.unprotect s path).workspace.lookup path
      = some { f with writable := true, link := none } := by
    simp only [Model.unprotect, hf]
    exact lookup_upsert path _ s.workspace
  exact add_hardlink_protects_aux _ path _ hf'

/-- Witness for C7 at the fresh workspace state. -/
theorem hardlink_add_shares_inode_and_protects_witness :
    (∃ s' f', Model.add Model.LinkKind.hardlink Model.freshState "foo" = some s' ∧
      s'.workspace.lookup "foo" = some f' ∧
      f'.sharesCacheInode = true ∧ f'.writable = false) ∧
    (∃ s₂ f₂, Model.add Model.LinkKind.hardlink
        (Model.unprotect Model.freshState "foo") "foo" = some s₂ ∧
      s₂.workspace.lookup "foo" = some f₂ ∧
      f₂.sharesCacheInode = true ∧ f₂.writable = false) :=
  hardlink_add_shares_inode_and_protects Model.freshState "foo" Model.fooFile rfl

theorem params_keys_foldl :
    ∀ (l : List ParamsDep) (acc : List Val),
    l.foldl paramsKeysStep acc = defaultBareKeys l ++ acc ++ groupedKeyEntries l
  | [], acc => by simp [defaultBareKeys, groupedKeyEntries]
  | p :: rest, acc => by
    rw [List.foldl_cons]
    cases hk : paramsSortedKeys p.params with
    | nil =>
      have hstep : paramsKeysStep acc p = acc := by
        simp [paramsKeysStep, hk]
      have hd : defaultBareKeys (p :: rest) = defaultBareKeys rest := by
        simp [defaultBareKeys, List.filter, hk]
      have hg : groupedKeyEntries (p :: rest) = groupedKeyEntries rest := by
        simp [groupedKeyEntries, List.filter, hk]
      rw [hstep, hd, hg, params_keys_foldl rest acc]
    | cons k0 ks =>
      by_cases hdef : (p.def_path == DEFAULT_PARAMS_FILE) = true
      · have hstep : paramsKeysStep acc p
            = (paramsSortedKeys p.params).map Val.s ++ acc := by
          simp only [paramsKeysStep, hk]
          rw [if_pos hdef, ← hk]
        have hd : defaultBareKeys (p :: rest)
            = defaultBareKeys rest ++ (paramsSortedKeys p.params).map Val.s := by
          simp [defaultBareKeys, List.filter, hk, hdef, List.flatMap_append]
        have hg : groupedKeyEntries (p :: rest) = groupedKeyEntries rest := by
          simp [groupedKeyEntries, List.filter, hk, hdef]
        rw [hstep, hd, hg, params_keys_foldl rest _]
        simp [List.append_assoc]
      · have hstep : paramsKeysStep acc p
            = acc ++ [Val.dict [(p.def_path,
                Val.list ((paramsSortedKeys p.params).map Val.s))]] := by
          simp only [paramsKeysStep, hk]
          rw [if_neg hdef, ← hk]
        have hd : defaultBareKeys (p :: rest) = defaultBareKeys rest := by
          simp [defaultBareKeys, List.filter, hk, hdef]
        have hg : groupedKeyEntries (p :: rest)
            = Val.dict [(p.def_path,
                Val.list ((paramsSortedKeys p.params).map Val.s))]
              :: groupedKeyEntries rest := by
          simp [groupedKeyEntries, List.filter, hk, hdef]
        rw [hstep, hd, hg, params_keys_foldl rest _]
        simp [List.append_assoc]

theorem serialize_params_keys_eq (params : List ParamsDep) :
    _serialize_params_keys params =
      defaultBareKeys (sort_by_path ParamsDep.def_path params)
        ++ groupedKeyEntries (sort_by_path ParamsDep.def_path params) := by
  rw [_serialize_params_keys, params_keys_foldl]
  simp

theorem params_values_foldl_nodef :
    ∀ (l : List ParamsDep) (acc : List (String × Val)),
    (∀ q ∈ l, isDictParams q.params = true → q.def_path ≠ DEFAULT_PARAMS_FILE) →
    ((l.filter (fun q => isDictParams q.params)).map ParamsDep.def_path).Nodup →
    (∀ x ∈ (l.filter (fun q => isDictParams q.params)).map ParamsDep.def_path,
      x ∉ acc.map Prod.fst) →
    l.foldl paramsValuesStep acc
      = acc ++ (l.filter (fun q => isDictParams q.params)).map paramsValueEntry
  | [], acc, _, _, _ => by simp
  | p :: rest, acc, hnodef, hnd, hfresh => by
    rw [List.foldl_cons]
    cases hp : p.params with
    | list ks =>
      have hstep : paramsValuesStep acc p = acc := by
        simp [paramsValuesStep, hp]
      have hpd : isDictParams p.params = false := by simp [isDictParams, hp]
      have hfilt : List.filter (fun q => isDictParams q.params) (p :: rest)
          = rest.filter (fun q => isDictParams q.params) := by
        simp [List.filter, hpd]
      rw [hfilt] at hnd hfresh
      rw [hstep, hfilt]
      exact params_values_foldl_nodef rest acc
        (fun q hq => hnodef q (List.mem_cons_of_mem p hq)) hnd hfresh
    | dict d =>
      have hpd : isDictParams p.params = true := by simp [isDictParams, hp]
      have hfilt : List.filter (fun q => isDictParams q.params) (p :: rest)
          = p :: rest.filter (fun q => isDictParams q.params) := by
        simp [List.filter, hpd]
      have hne : p.def_path ≠ DEFAULT_PARAMS_FILE :=
        hnodef p (List.mem_cons_self p rest) hpd
      rw [hfilt] at hnd hfresh
      simp only [List.map_cons] at hnd hfresh
      have hfr : p.def_path ∉ acc.map Prod.fst :=
        hfresh p.def_path (List.mem_cons_self _ _)
      have hstep : paramsValuesStep acc p = acc ++ [paramsValueEntry p] := by
        simp only [paramsValuesStep, hp]
        rw [dictAssign_of_fresh _ _ _ hfr, if_neg (by simp [hne])]
        simp [paramsValueEntry, paramsDictKV, hp]
      have hpnotin := (List.nodup_cons.mp hnd).1
      have hnd' := (List.nodup_cons.mp hnd).2
      have hfresh' : ∀ x ∈ (rest.filter
          (fun q => isDictParams q.params)).map ParamsDep.def_path,
          x ∉ (acc ++ [paramsValueEntry p]).map Prod.fst := by
        intro x hx
        simp only [List.map_append, List.mem_append]
        rintro (hin | hin)
        · exact hfresh x (List.mem_cons_of_mem _ hx) hin
        · simp [paramsValueEntry] at hin
          exact hpnotin (hin ▸ hx)
      rw [hstep, params_values_foldl_nodef rest (acc ++ [paramsValueEntry p])
        (fun q hq => hnodef q (List.mem_cons_of_mem p hq)) hnd' hfresh', hfilt]
      simp [List.append_assoc]

theorem params_values_foldl :
    ∀ (l : List ParamsDep) (acc : List (String × Val)),
    ((l.filter (fun q => isDictParams q.params)).map ParamsDep.def_path).Nodup →
    (∀ x ∈ (l.filter (fun q => isDictParams q.params)).map ParamsDep.def_path,
      x ∉ acc.map Prod.fst) →
    DEFAULT_PARAMS_FILE ∉ acc.map Prod.fst →
    l.foldl paramsValuesStep acc
      = (l.filter (fun q => isDictParams q.params
            && q.def_path == DEFAULT_PARAMS_FILE)).map paramsValueEntry
        ++ acc
        ++ (l.filter (fun q => isDictParams q.params
            && !(q.def_path == DEFAULT_PARAMS_FILE))).map paramsValueEntry
  | [], acc, _, _, _ => by simp
  | p :: rest, acc, hnd, hfresh, hD => by
    rw [List.foldl_cons]
    cases hp : p.params with
    | list ks =>
      have hstep : paramsValuesStep acc p = acc := by
        simp [paramsValuesStep, hp]
      have hpd : isDictParams p.params = false := by simp [isDictParams, hp]
      have hfilt : List.filter (fun q => isDictParams q.params) (p :: rest)
          = rest.filter (fun q => isDictParams q.params) := by
        simp [List.filter, hpd]
      have hfd : List.filter (fun q => isDictParams q.params
            && q.def_path == DEFAULT_PARAMS_FILE) (p :: rest)
          = rest.filter (fun q => isDictParams q.params
            && q.def_path == DEFAULT_PARAMS_FILE) := by
        simp [List.filter, hpd]
      have hfo : List.filter (fun q => isDictParams q.params
            && !(q.def_path == DEFAULT_PARAMS_FILE)) (p :: rest)
          = rest.filter (fun q => isDictParams q.params
            && !(q.def_path == DEFAULT_PARAMS_FILE)) := by
        simp [List.filter, hpd]
      rw [hfilt] at hnd hfresh
      rw [hstep, hfd, hfo]
      exact params_values_foldl rest acc hnd hfresh hD
    | dict d =>
      have hpd : isDictParams p.params = true := by simp [isDictParams, hp]
      have hfilt : List.filter (fun q => isDictParams q.params) (p :: rest)
          = p :: rest.filter (fun q => isDictParams q.params) := by
        simp [List.filter, hpd]
      rw [hfilt] at hnd hfresh
      simp only [List.map_cons] at hnd hfresh
      have hfr : p.def_path ∉ acc.map Prod.fst :=
        hfresh p.def_path (List.mem_cons_self _ _)
      have hpnotin := (List.nodup_cons.mp hnd).1
      have hnd' := (List.nodup_cons.mp hnd).2
      by_cases hdef : (p.def_path == DEFAULT_PARAMS_FILE) = true
      · have hdefeq : p.def_path = DEFAULT_PARAMS_FILE := beq_iff_eq.mp hdef
        have hstep : paramsValuesStep acc p = paramsValueEntry p :: acc := by
          simp only [paramsValuesStep, hp]
          rw [dictAssign_of_fresh _ _ _ hfr, if_pos hdef,
            moveToFront_append_fresh _ _ _ hfr]
          simp [paramsValueEntry, paramsDictKV, hp]
        have hnodef : ∀ q ∈ rest, isDictParams q.params = true →
            q.def_path ≠ DEFAULT_PARAMS_FILE := by
          intro q hq hqd hqeq
          exact hpnotin (hdefeq ▸ hqeq ▸ List.mem_map.mpr
            ⟨q, List.mem_filter.mpr ⟨hq, hqd⟩, rfl⟩)
        have hfresh' : ∀ x ∈ (rest.filter
            (fun q => isDictParams q.params)).map ParamsDep.def_path,
            x ∉ (paramsValueEntry p :: acc).map Prod.fst := by
          intro x hx
          simp only [List.map_cons, List.mem_cons]
          rintro (hin | hin)
          · simp only [paramsValueEntry] at hin
            exact hpnotin (hin ▸ hx)
          · exact hfresh x (List.mem_cons_of_mem _ hx) hin
        rw [hstep, params_values_foldl_nodef rest (paramsValueEntry p :: acc)
          hnodef hnd' hfresh']
        have hfd : List.filter (fun q => isDictParams q.params
              && q.def_path == DEFAULT_PARAMS_FILE) (p :: rest) = [p] := by
          have : List.filter (fun q => isDictParams q.params
              && q.def_path == DEFAULT_PARAMS_FILE) rest = [] := by
            rw [List.filter_eq_nil_iff]
            intro q hq
            simp only [Bool.and_eq_true, beq_iff_eq, not_and]
            intro hqd
            exact hnodef q hq hqd
          simp [List.filter, hpd, hdef, this]
        have hfo : List.filter (fun q => isDictParams q.params
              && !(q.def_path == DEFAULT_PARAMS_FILE)) (p :: rest)
            = rest.filter (fun q => isDictParams q.params) := by
          have : ∀ q ∈ rest, (isDictParams q.params
              && !(q.def_path == DEFAULT_PARAMS_FILE)) = isDictParams q.params := by
            intro q hq
            cases hqd : isDictParams q.params with
            | false => simp
            | true =>
              simp only [Bool.true_and]
              simp [hnodef q hq hqd]
          simp [List.filter, hpd, hdef, List.filter_congr this]
        rw [hfd, hfo]
        simp [List.append_assoc]
      · have hne : p.def_path ≠ DEFAULT_PARAMS_FILE := by
          simpa [beq_iff_eq] using hdef
        have hstep : paramsValuesStep acc p = acc ++ [paramsValueEntry p] := by
          simp only [paramsValuesStep, hp]
          rw [dictAssign_of_fresh _ _ _ hfr, if_neg (by simp [hne])]
          simp [paramsValueEntry, paramsDictKV, hp]
        have hfresh' : ∀ x ∈ (rest.filter
            (fun q => isDictParams q.params)).map ParamsDep.def_path,
            x ∉ (acc ++ [paramsValueEntry p]).map Prod.fst := by
          intro x hx
          simp only [List.map_append, List.mem_append]
          rintro (hin | hin)
          · exact hfresh x (List.mem_cons_of_mem _ hx) hin
          · simp [paramsValueEntry] at hin
            exact hpnotin (hin ▸ hx)
        have hD' : DEFAULT_PARAMS_FILE ∉ (acc ++ [paramsValueEntry p]).map Prod.fst := by
          simp only [List.map_append, List.mem_append]
          rintro (hin | hin)
          · exact hD hin
          · simp [paramsValueEntry] at hin
            exact hne hin.symm
        have hfd : List.filter (fun q => isDictParams q.params
              && q.def_path == DEFAULT_PARAMS_FILE) (p :: rest)
            = rest.filter (fun q => isDictParams q.params
              && q.def_path == DEFAULT_PARAMS_FILE) := by
          simp [List.filter, hpd, hdef]
        have hfo : List.filter (fun q => isDictParams q.params
              && !(q.def_path == DEFAULT_PARAMS_FILE)) (p :: rest)
            = p :: rest.filter (fun q => isDictParams q.params
              && !(q.def_path == DEFAULT_PARAMS_FILE)) := by
          simp [List.filter, hpd, hdef]
        rw [hstep, params_values_foldl rest (acc ++ [paramsValueEntry p])
          hnd' hfresh' hD', hfd, hfo]
        simp [List.append_assoc]

theorem serialize_params_values_eq (params : List ParamsDep)
    (hnd : ((sort_by_path ParamsDep.def_path params).map ParamsDep.def_path).Nodup) :
    _serialize_params_values params =
      ((sort_by_path ParamsDep.def_path params).filter
          (fun q => isDictParams q.params
            && q.def_path == DEFAULT_PARAMS_FILE)).map paramsValueEntry
        ++ ((sort_by_path ParamsDep.def_path params).filter
          (fun q => isDictParams q.params
            && !(q.def_path == DEFAULT_PARAMS_FILE))).map paramsValueEntry := by
  rw [_serialize_params_values, params_values_foldl _ []
    (List.Nodup.sublist
      (List.Sublist.map ParamsDep.def_path (List.filter_sublist _)) hnd)
    (by simp) (by simp)]
  simp

/-- C6: in the serialized pipeline-file params list the default parameter
file keys come first, bare, followed by one grouped entry per other
parameter file in sorted path order; in the lockfile params mapping the
default parameter file entry comes first followed by the other files in
sorted path order; and the key list of every file is sorted. -/
theorem params_default_file_first (params : List ParamsDep)
    (hnd : (params.map ParamsDep.def_path).Nodup) :
    _serialize_params_keys params =
      defaultBareKeys (sort_by_path ParamsDep.def_path params)
        ++ groupedKeyEntries (sort_by_path ParamsDep.def_path params) ∧
    (((sort_by_path ParamsDep.def_path params).filter
        (fun p => !(p.def_path == DEFAULT_PARAMS_FILE)
          && !(paramsSortedKeys p.params).isEmpty)).map ParamsDep.def_path).Pairwise
      (fun a b => strLe a b = true) ∧
    (∀ pv : ParamsVal,
      (paramsSortedKeys pv).Pairwise (fun a b => strLe a b = true)) ∧
    _serialize_params_values params =
      ((sort_by_path ParamsDep.def_path params).filter
          (fun q => isDictParams q.params
            && q.def_path == DEFAULT_PARAMS_FILE)).map paramsValueEntry
        ++ ((sort_by_path ParamsDep.def_path params).filter
          (fun q => isDictParams q.params
            && !(q.def_path == DEFAULT_PARAMS_FILE))).map paramsValueEntry ∧
    (((sort_by_path ParamsDep.def_path params).filter
        (fun q => isDictParams q.params
          && !(q.def_path == DEFAULT_PARAMS_FILE))).map ParamsDep.def_path).Pairwise
      (fun a b => strLe a b = true) ∧
    (∀ p : ParamsDep, ∀ fkvs, paramsDictKV p.params = some fkvs →
      (fkvs.map Prod.fst).Pairwise (fun a b => strLe a b = true)) := by
  have hndS : ((sort_by_path ParamsDep.def_path params).map
      ParamsDep.def_path).Nodup :=
    (((stableSort_perm _ params).map ParamsDep.def_path).symm).nodup hnd
  refine ⟨serialize_params_keys_eq params, ?_, ?_, serialize_params_values_eq params hndS,
    ?_, ?_⟩
  · exact List.pairwise_map.mpr (List.Pairwise.sublist (List.filter_sublist _)
      (pairwise_sort_by_path ParamsDep.def_path params))
  · intro pv
    cases pv with
    | dict kvs => exact pairwise_sortStrings _
    | list ks => exact pairwise_sortStrings _
  · exact List.pairwise_map.mpr (List.Pairwise.sublist (List.filter_sublist _)
      (pairwise_sort_by_path ParamsDep.def_path params))
  · intro p fkvs h
    cases hp : p.params with
    | dict d =>
      rw [hp] at h
      simp only [paramsDictKV, Option.some.injEq] at h
      subst h
      exact List.pairwise_map.mpr (List.pairwise_map.mpr
        (pairwise_sortStrings (d.map Prod.fst)))
    | list ks =>
      rw [hp] at h
      simp [paramsDictKV] at h

/-- Witness for C6 at the concrete two-file params list. -/
theorem params_default_file_first_witness :
    (sampleParams.map ParamsDep.def_path).Nodup ∧
    (_serialize_params_keys sampleParams =
      defaultBareKeys (sort_by_path ParamsDep.def_path sampleParams)
        ++ groupedKeyEntries (sort_by_path ParamsDep.def_path sampleParams) ∧
    (((sort_by_path ParamsDep.def_path sampleParams).filter
        (fun p => !(p.def_path == DEFAULT_PARAMS_FILE)
          && !(paramsSortedKeys p.params).isEmpty)).map ParamsDep.def_path).Pairwise
      (fun a b => strLe a b = true) ∧
    (∀ pv : ParamsVal,
      (paramsSortedKeys pv).Pairwise (fun a b => strLe a b = true)) ∧
    _serialize_params_values sampleParams =
      ((sort_by_path ParamsDep.def_path sampleParams).filter
          (fun q => isDictParams q.params
            && q.def_path == DEFAULT_PARAMS_FILE)).map paramsValueEntry
        ++ ((sort_by_path ParamsDep.def_path sampleParams).filter
          (fun q => isDictParams q.params
            && !(q.def_path == DEFAULT_PARAMS_FILE))).map paramsValueEntry ∧
    (((sort_by_path ParamsDep.def_path sampleParams).filter
        (fun q => isDictParams q.params
          && !(q.def_path == DEFAULT_PARAMS_FILE))).map ParamsDep.def_path).Pairwise
      (fun a b => strLe a b = true) ∧
    (∀ p : ParamsDep, ∀ fkvs, paramsDictKV p.params = some fkvs →
      (fkvs.map Prod.fst).Pairwise (fun a b => strLe a b = true))) :=
  ⟨by decide, params_default_file_first sampleParams (by decide)⟩

end DVC
